import Mathlib

/-!
Shallow embedding of `src/alchemist.py` (a bomb-catalog ranking script for a
tabletop RPG character).  Python values are modelled as follows: `int` as `ℤ`
(or `ℕ` where the source only meets naturals), `float` arithmetic as exact `ℚ`
arithmetic (the spec states its damage formulas over the reals; where a claim
depends on a printed score the float computation is exact at that value, e.g.
`3.0 * 3.24` is exactly the double nearest `9.72`), `str` as `String`, dicts (which iterate in insertion
order) as association lists, exceptions as `Option` (`none` = the Python code
raises).  The I/O collaborators (`read_config`, `read_formulae`, `read_bombs`,
`sys.argv`) are out of scope per the spec; `main` takes their results as
parameters.
-/

namespace Alchemist

/-! ### Python string primitives used by the source -/

/-- Test that `needle` is a prefix of `hay` (character lists). -/
def charsLeadOf : List Char → List Char → Bool
  | [], _ => true
  | _ :: _, [] => false
  | a :: as, b :: bs => a == b && charsLeadOf as bs

/-- Python's substring test `needle in hay` on character lists. -/
def containsSub : List Char → List Char → Bool
  | hay, needle =>
    charsLeadOf needle hay ||
      match hay with
      | [] => false
      | _ :: t => containsSub t needle

/-- Python's `needle in hay` on strings (case-sensitive substring test). -/
def strIncl (hay needle : String) : Bool :=
  containsSub hay.data needle.data

/-- Python `str.strip()` default whitespace characters (ASCII). -/
def isSpaceC (c : Char) : Bool :=
  c == ' ' || c == '\t' || c == '\n' || c == '\r' || c == '\x0b' || c == '\x0c'

/-- Numeric value of a decimal digit character. -/
def digVal (c : Char) : ℕ := c.toNat - 48

/-- Tail of Python's `int()` digit grammar: `('_'? digit)*`, accumulating the
value.  A single underscore is allowed only between digits. -/
def digitRun : List Char → ℕ → Option ℕ
  | [], acc => some acc
  | c :: rest, acc =>
    if c == '_' then
      match rest with
      | [] => none
      | c2 :: rest2 =>
        if c2.isDigit then digitRun rest2 (acc * 10 + digVal c2) else none
    else if c.isDigit then digitRun rest (acc * 10 + digVal c) else none

/-- Python's `int()` digit part: a digit followed by `('_'? digit)*`. -/
def pyIntCore : List Char → Option ℕ
  | [] => none
  | c :: rest => if c.isDigit then digitRun rest (digVal c) else none

/-- Python's `int(s)` on a character list: optional surrounding whitespace, an
optional sign, then a decimal digit run (ASCII only). `none` = `ValueError`. -/
def pyInt (l : List Char) : Option ℤ :=
  let l1 := l.dropWhile isSpaceC
  let l2 := (l1.reverse.dropWhile isSpaceC).reverse
  match l2 with
  | [] => none
  | c :: rest =>
    if c == '+' then (pyIntCore rest).map Int.ofNat
    else if c == '-' then (pyIntCore rest).map (fun n => -(n : ℤ))
    else (pyIntCore (c :: rest)).map Int.ofNat

/-- One step of decimal accumulation; `cs.foldl digStep 0` is the numeric value
of a digit string `cs`. -/
def digStep (a : ℕ) (c : Char) : ℕ := a * 10 + digVal c

/-- Python's `s.split("d")`: split a character list at every occurrence of the
character `d`, keeping empty pieces. -/
def splitOnD : List Char → List (List Char)
  | [] => [[]]
  | c :: rest =>
    let r := splitOnD rest
    if c == 'd' then [] :: r
    else
      match r with
      | [] => [[c]]
      | p :: ps => (c :: p) :: ps

/-- Standard decimal rendering of a natural number, fuel-and-accumulator form
(`fuel` bounds the number of digits still to emit). -/
def pyReprAux : ℕ → ℕ → List Char → List Char
  | 0, _, acc => acc
  | fuel + 1, n, acc =>
    let d := Char.ofNat (48 + n % 10)
    if n < 10 then d :: acc else pyReprAux fuel (n / 10) (d :: acc)

/-- Standard decimal rendering of a natural number (Python `str(n)` for `n ≥ 0`). -/
def pyRepr (n : ℕ) : String := String.mk (pyReprAux (n + 1) n [])

/-- Python's `str.title()` restricted to ASCII: a letter that follows a
non-letter is uppercased, a letter that follows a letter is lowercased. -/
def pyTitleGo : List Char → Bool → List Char
  | [], _ => []
  | c :: rest, prevAlpha =>
    (if c.isAlpha then (if prevAlpha then c.toLower else c.toUpper) else c)
      :: pyTitleGo rest c.isAlpha

/-- Python's `str.title()` (ASCII). -/
def pyTitle (s : String) : String := String.mk (pyTitleGo s.data false)

/-- Least `k` (up to the fuel) with `q * 10^k` integral. -/
def decExpAux (q : ℚ) : ℕ → Option ℕ
  | 0 => none
  | n + 1 => if q.den = 1 then some 0 else (decExpAux (q * 10) n).map (· + 1)

/-- Rendering of a rational with terminating decimal expansion the way Python's
`repr` prints the equal float (`9.72` ↦ `"9.72"`, `3.0` ↦ `"3.0"`); every score
reaching this function in the claims is exactly representable this way. -/
def formatScore (q : ℚ) : String :=
  match decExpAux q 60 with
  | none => "<nondecimal>"
  | some 0 => toString q.num ++ ".0"
  | some (k + 1) =>
    let n := (q * (10 : ℚ) ^ (k + 1)).num
    let sgn := if n < 0 then "-" else ""
    let ds := (Nat.repr n.natAbs).data
    let ds := if ds.length ≤ k + 1 then List.replicate (k + 2 - ds.length) '0' ++ ds else ds
    sgn ++ String.mk (ds.take (ds.length - (k + 1))) ++ "." ++
      String.mk (ds.drop (ds.length - (k + 1)))

/-! ### Entity model (`Save`, `Variant`, `Bomb`) -/

/-- A Python `int | str` union field (`damage`, `persistent`). -/
inductive IntStr where
  | i (n : ℤ)
  | s (str : String)
deriving DecidableEq

/-- Python truthiness of an `int | str` value: `0` and `""` are falsy. -/
def IntStr.truthy : IntStr → Bool
  | .i n => n != 0
  | .s str => str != ""

/-- Python f-string rendering of an `int | str` value. -/
def IntStr.render : IntStr → String
  | .i n => toString n
  | .s str => str

/-- Model of the `Save` dataclass. -/
structure Save where
  type : String
  basic : Bool := false
  success : String := ""
  failure : String := ""
  critical : String := ""
deriving DecidableEq

/-- Model of `Save.__str__`. -/
def saveStr (s : Save) : String :=
  "Creatures within the area of effect must make a " ++
      (if s.basic then "basic " else "") ++ s.type ++ " save.\n" ++
    (if s.success != "" then "  Success: The target is " ++ s.success ++ ".\n" else "") ++
    (if s.failure != "" then "  Failure: The target is " ++ s.failure ++ ".\n" else "") ++
    (if s.critical != "" then
      "  Critical Failure: The target is " ++ s.critical ++ ".\n" else "")

/-- Model of the `Variant` dataclass: one tier of a bomb. -/
structure Variant where
  level : String
  bonus : ℤ := 0
  damage : IntStr := .i 0
  splash : ℤ := 0
  persistent : IntStr := .i 0
deriving DecidableEq

/-- Value of `int(count) * int(damage) / 2` after `s.split("d")` into exactly two
pieces; `none` = the unpacking or `int()` raises. -/
def diceAvg (s : String) : Option ℚ :=
  match splitOnD s.data with
  | [c, d] =>
    match pyInt c, pyInt d with
    | some n, some m => some ((n : ℚ) * (m : ℚ) / 2)
    | _, _ => none
  | _ => none

/-- Model of `Variant.avg_dmg`.  The Python code first accumulates
`splash + damage-part` into `total` (this can raise on a malformed `damage`
string, which is why the damage field is still parsed here), then overwrites
`total` with `persist * 3.24` where `persist` is `persistent + splash` for an
integer `persistent` and `N * M / 2` for a dice string `"NdM"`.
`(3.24 : ℚ) = 81/25` exactly. -/
def Variant.avg_dmg (v : Variant) : Option ℚ := do
  let _dmgPart : ℚ ←
    match v.damage with
    | .i n => pure (n : ℚ)
    | .s str => diceAvg str
  let persist : ℚ ←
    match v.persistent with
    | .i n => pure ((n : ℚ) + (v.splash : ℚ))
    | .s str => diceAvg str
  pure (persist * 3.24)

/-- The dice-parse obligation `avg_dmg` places on an `int | str` field: an
integer never raises, a string must split on `d` into exactly two pieces that
`int()` accepts. -/
def diceParses : IntStr → Prop
  | .i _ => True
  | .s str => ∃ a b : List Char,
      splitOnD str.data = [a, b] ∧ (pyInt a).isSome ∧ (pyInt b).isSome

/-- Well-formedness per the spec's data model: an integer, or a dice string of
the exact shape `"NdM"` with decimal numerals `N`, `M`. -/
def wellFormedField : IntStr → Prop
  | .i _ => True
  | .s str => ∃ c k : ℕ, str = pyRepr c ++ "d" ++ pyRepr k

/-- Model of the `Bomb` dataclass: one catalog item; `levels` is an insertion-ordered dict
from numeric character level to `Variant`, modelled as an association list. -/
structure Bomb where
  type : String
  levels : List (ℤ × Variant)
  on_hit : String := ""
  on_crit : String := ""
  additional : String := ""
  save : Option Save := none
deriving DecidableEq

/-- Model of `Bomb.variant_str`: render the body text for the tier at key `lvl`;
`none` = `KeyError` on the dict lookup. -/
def Bomb.variant_str (b : Bomb) (lvl : ℤ) : Option String :=
  (b.levels.lookup lvl).map fun variant =>
    let save := match b.save with
      | some s => saveStr s
      | none => ""
    let bonusPart : List String :=
      if variant.bonus != 0 then
        ["You gain a +" ++ toString variant.bonus ++ " bonus to attack rolls"]
      else []
    let damages : List String :=
      (if variant.damage.truthy then
        [variant.damage.render ++ " " ++ b.type ++ " damage"] else []) ++
      (if variant.persistent.truthy then
        [variant.persistent.render ++ " persistent " ++ b.type ++ " damage"] else []) ++
      (if variant.splash != 0 then
        [toString variant.splash ++ " " ++ b.type ++ " splash damage"] else []) ++
      (if b.additional != "" then
        [variant.damage.render ++ " additional " ++ b.additional ++ " damage"] else [])
    let damagePart : List String :=
      if damages != [] then ["The bomb deals " ++ String.intercalate ", " damages] else []
    let hitPart : List String :=
      if b.on_hit != "" then
        ["On a hit, the target is " ++ b.on_hit ++ " until the start of your next turn"]
      else []
    let critPart : List String :=
      if b.on_crit != "" then
        ["On a critical hit, the target is " ++ b.on_crit ++
          " until the start of your next turn"]
      else []
    let description := bonusPart ++ damagePart ++ hitPart ++ critPart
    save ++ String.intercalate ". " description ++ "."

/-- The per-token field test inside `Bomb.match`: `item` is a substring of
`type`, `on_hit`, `on_crit`, `additional`, or, when a save is present, of the
rendered save text (`all((self.save, item in str(self.save)))` is `False`
whenever `save` is `None`). -/
def Bomb.mentions (b : Bomb) (item : String) : Bool :=
  strIncl b.type item || strIncl b.on_hit item || strIncl b.on_crit item ||
    strIncl b.additional item ||
    (match b.save with
     | some s => strIncl (saveStr s) item
     | none => false)

/-- Model of `Bomb.match` (renamed: `match` is a Lean keyword).  Walks the token list;
a token starting with `-` is stripped and negated; the loop returns `False` as
soon as the running conjunction fails.  `none` = the `item[0]` subscript raises
`IndexError` on an empty token. -/
def Bomb.matchSearch (b : Bomb) : List String → Option Bool
  | [] => some true
  | t :: rest =>
    match t.data with
    | [] => none
    | c :: cs =>
      let negate := c == '-'
      let item := if c == '-' then String.mk cs else t
      let check := b.mentions item
      let ok := if negate then !check else check
      if ok then b.matchSearch rest else some false

/-! ### `parse_bomb` and `main` -/

/-- Model of `parse_bomb`: header line plus rendered body; `none` = a lookup or dice
parse raises. -/
def parse_bomb (name : String) (b : Bomb) (lvl : ℤ) : Option String := do
  let variant ← b.levels.lookup lvl
  let score ← variant.avg_dmg
  let body ← b.variant_str lvl
  pure (pyTitle name ++ " (" ++ pyTitle variant.level ++ ") [" ++ toString lvl ++ "] (" ++
    formatScore score ++ " dmg)" ++ "\n" ++ body ++ "\n")

/-- The tier-selection loop of `main`:
`version = 0; for level in keys: if level > ceiling: break; version = level`. -/
def selectGo (ceiling : ℤ) : List ℤ → ℤ → ℤ
  | [], version => version
  | l :: ls, version => if ceiling < l then version else selectGo ceiling ls l

/-- Selected tier key for a list of level keys and a level ceiling (`0` when no
key qualifies, which `main` treats as "no tier"). -/
def selectVersion (keys : List ℤ) (ceiling : ℤ) : ℤ := selectGo ceiling keys 0

/-- The catalog scan of `main`: for each item, skip it when a non-empty search
does not match; print its bare name when it is not a known formula; otherwise
run the tier-selection loop and collect `(name, bomb, version)` when `version`
is nonzero.  Returns (printed names, collected variants); `none` = `match`
raised. -/
def mainScan (formulae : List String) (ceiling : ℤ) (search : List String) :
    List (String × Bomb) → Option (List String × List (String × Bomb × ℤ))
  | [] => some ([], [])
  | (name, b) :: rest =>
    match (if search.isEmpty then some false
           else (b.matchSearch search).map (fun m => !m) : Option Bool) with
    | none => none
    | some skip =>
      if skip then mainScan formulae ceiling search rest
      else if !(formulae.contains name) then
        (mainScan formulae ceiling search rest).map (fun r => (name :: r.1, r.2))
      else
        let version := selectVersion (b.levels.map Prod.fst) ceiling
        if version != 0 then
          (mainScan formulae ceiling search rest).map
            (fun r => (r.1, (name, b, version) :: r.2))
        else mainScan formulae ceiling search rest

/-- The sort key of `main`: `x[1].levels[x[2]].avg_dmg`. -/
def variantScore (x : String × Bomb × ℤ) : Option ℚ :=
  (x.2.1.levels.lookup x.2.2).bind Variant.avg_dmg

/-- Python `sorted(..., key=..., reverse=True)` is a stable descending sort by key;
stable sorts with the same comparator agree extensionally, so it is modelled by
insertion sort with relation "`x` may precede `y` iff `key y ≤ key x`". -/
def sortDesc {α : Type} (key : α → ℚ) (l : List α) : List α :=
  l.insertionSort (fun x y => key y ≤ key x)

/-- Left-to-right effectful map over `Option` (models a Python loop whose body
may raise: the first exception aborts the whole run). -/
def mapMO (f : α → Option β) : List α → Option (List β)
  | [] => some []
  | a :: as =>
    match f a with
    | none => none
    | some b =>
      match mapMO f as with
      | none => none
      | some bs => some (b :: bs)

/-- Model of `main`, with the I/O collaborators (config level, formula book, catalog,
argv search tokens) passed in.  Output is the list of strings handed to
`print`, in order; `none` = an unhandled exception.  `sorted` computes every
key before comparing, so the scores are evaluated in list order first. -/
def main (catalog : List (String × Bomb)) (formulae : List String) (ceiling : ℤ)
    (search : List String) : Option (List String) :=
  match mainScan formulae ceiling search catalog with
  | none => none
  | some (names, variants) =>
    match mapMO (fun v => (variantScore v).map (fun q => (v, q))) variants with
    | none => none
    | some keyed =>
      match mapMO (fun v => parse_bomb v.1.1 v.1.2.1 v.1.2.2) (sortDesc Prod.snd keyed) with
      | none => none
      | some blocks => some (names ++ blocks)

/-! ### Concrete fixtures used by witnesses and counterexamples -/

/-- The acid-flask catalog entry of the spec's end-to-end example. -/
def acidFlask : Bomb :=
  { type := "acid",
    levels := [(1, { level := "lesser", damage := .s "1d6", persistent := .s "1d6" })] }

/-- A minimal bomb none of whose fields mention anything interesting. -/
def plainBomb : Bomb :=
  { type := "acid", levels := [(1, { level := "lesser", damage := .i 1 })] }

/-- A bomb whose `type` contains `"fire"`. -/
def fireBomb : Bomb :=
  { type := "fire", levels := [(1, { level := "lesser", damage := .i 1 })] }

end Alchemist

namespace Alchemist

/-! ### Lemmas about the Python primitives -/

/-- A decimal digit character is not equal to any character that is not a
decimal digit. -/
theorem isDigit_ne_char {c d : Char} (h : c.isDigit = true) (hd : d.isDigit = false) :
    (c == d) = false := by
  cases hc : c == d with
  | false => rfl
  | true =>
    have he : c = d := beq_iff_eq.mp hc
    rw [he, hd] at h
    exact absurd h (by simp)

/-- Unfolding `digitRun` at a digit head. -/
theorem digitRun_cons_digit {c : Char} (hc : c.isDigit = true) (rest : List Char) (acc : ℕ) :
    digitRun (c :: rest) acc = digitRun rest (acc * 10 + digVal c) := by
  have h1 : (c == '_') = false := isDigit_ne_char hc (by decide)
  rw [digitRun.eq_def]
  simp [h1, hc]

/-- Running `digitRun` on an all-digit tail just folds up the decimal value. -/
theorem digitRun_digits : ∀ (cs : List Char) (acc : ℕ), (∀ c ∈ cs, c.isDigit = true) →
    digitRun cs acc = some (cs.foldl digStep acc) := by
  intro cs
  induction cs with
  | nil => intro acc _; rfl
  | cons c rest ih =>
    intro acc h
    have hc : c.isDigit = true := h c (by simp)
    rw [digitRun_cons_digit hc]
    exact ih _ (fun x hx => h x (List.mem_cons_of_mem _ hx))

/-- A decimal digit character is not default whitespace. -/
theorem not_space_of_digit {c : Char} (h : c.isDigit = true) : isSpaceC c = false := by
  have h1 := isDigit_ne_char (d := ' ') h (by decide)
  have h2 := isDigit_ne_char (d := '\t') h (by decide)
  have h3 := isDigit_ne_char (d := '\n') h (by decide)
  have h4 := isDigit_ne_char (d := '\r') h (by decide)
  have h5 := isDigit_ne_char (d := '\x0b') h (by decide)
  have h6 := isDigit_ne_char (d := '\x0c') h (by decide)
  simp [isSpaceC, h1, h2, h3, h4, h5, h6]

/-- Stripping whitespace from an all-digit list is the identity. -/
theorem dropWhile_spaces_of_digits {cs : List Char} (h : ∀ c ∈ cs, c.isDigit = true) :
    cs.dropWhile isSpaceC = cs := by
  cases cs with
  | nil => rfl
  | cons c rest =>
    rw [List.dropWhile_cons]
    simp [not_space_of_digit (h c (by simp))]

/-- Python's `int()` accepts a nonempty all-digit string and returns its
decimal value. -/
theorem pyInt_digits {cs : List Char} (h0 : cs ≠ []) (h : ∀ c ∈ cs, c.isDigit = true) :
    pyInt cs = some ((cs.foldl digStep 0 : ℕ) : ℤ) := by
  obtain ⟨c, rest, rfl⟩ := List.exists_cons_of_ne_nil h0
  have hrev : ∀ x ∈ (c :: rest).reverse, x.isDigit = true := by
    intro x hx
    exact h x (List.mem_reverse.mp hx)
  have hc : c.isDigit = true := h c (by simp)
  have hplus : (c == '+') = false := isDigit_ne_char hc (by decide)
  have hminus : (c == '-') = false := isDigit_ne_char hc (by decide)
  simp only [pyInt, dropWhile_spaces_of_digits h, dropWhile_spaces_of_digits hrev,
    List.reverse_reverse, hplus, hminus, Bool.false_eq_true, if_false, pyIntCore, hc, if_true,
    digitRun_digits rest (digVal c) (fun x hx => h x (List.mem_cons_of_mem _ hx))]
  simp [List.foldl, digStep]

/-- The character `Char.ofNat (48 + m)` for `m < 10` is the decimal digit of
value `m`. -/
theorem digitChar_spec {m : ℕ} (h : m < 10) :
    (Char.ofNat (48 + m)).isDigit = true ∧ digVal (Char.ofNat (48 + m)) = m := by
  interval_cases m <;> exact ⟨by decide, by decide⟩

/-- With enough fuel `pyReprAux` emits a nonempty digit string of the right
decimal value in front of the accumulator. -/
theorem pyReprAux_spec : ∀ (fuel : ℕ), ∀ (n : ℕ) (acc : List Char), n < 10 ^ fuel → 0 < fuel →
    ∃ ds : List Char, pyReprAux fuel n acc = ds ++ acc ∧ ds ≠ [] ∧
      (∀ c ∈ ds, c.isDigit = true) ∧
      ∀ a : ℕ, ds.foldl digStep a = a * 10 ^ ds.length + n := by
  intro fuel
  induction fuel with
  | zero => intro n acc _ h0; omega
  | succ f ih =>
    intro n acc hn _
    by_cases h10 : n < 10
    · refine ⟨[Char.ofNat (48 + n % 10)], by simp [pyReprAux, h10], by simp, ?_, ?_⟩
      · intro c hc
        simp only [List.mem_singleton] at hc
        subst hc
        exact (digitChar_spec (m := n % 10) (by omega)).1
      · intro a
        simp [List.foldl, digStep, (digitChar_spec (m := n % 10) (by omega)).2]
        omega
    · have hf : 0 < f := by
        rcases Nat.eq_zero_or_pos f with h0 | h0
        · subst h0; simp at hn; omega
        · exact h0
      have hrec : n / 10 < 10 ^ f := by
        rw [pow_succ] at hn
        omega
      obtain ⟨ds, hds, hne, hdig, hval⟩ := ih (n / 10) (Char.ofNat (48 + n % 10) :: acc) hrec hf
      refine ⟨ds ++ [Char.ofNat (48 + n % 10)], ?_, by simp, ?_, ?_⟩
      · simp only [pyReprAux, h10, if_false]
        rw [hds, List.append_assoc, List.singleton_append]
      · intro c hc
        rcases List.mem_append.mp hc with hx | hx
        · exact hdig c hx
        · simp only [List.mem_singleton] at hx
          subst hx
          exact (digitChar_spec (m := n % 10) (by omega)).1
      · intro a
        rw [List.foldl_append, hval a]
        simp only [List.foldl, digStep, (digitChar_spec (m := n % 10) (by omega)).2,
          List.length_append, List.length_singleton]
        have h1 : (a * 10 ^ ds.length + n / 10) * 10 + n % 10
            = a * (10 ^ ds.length * 10) + (n / 10 * 10 + n % 10) := by ring
        rw [h1, Nat.div_add_mod', ← pow_succ]

/-- The decimal rendering `pyRepr n` is a nonempty digit string of value `n`. -/
theorem pyRepr_spec (n : ℕ) : (pyRepr n).data ≠ [] ∧
    (∀ c ∈ (pyRepr n).data, c.isDigit = true) ∧ (pyRepr n).data.foldl digStep 0 = n := by
  have hfuel : n < 10 ^ (n + 1) :=
    lt_of_lt_of_le (Nat.lt_pow_self (by omega) n) (Nat.pow_le_pow_right (by omega) (by omega))
  obtain ⟨ds, hds, hne, hdig, hval⟩ := pyReprAux_spec (n + 1) n [] hfuel (by omega)
  have hdata : (pyRepr n).data = ds := by
    simp [pyRepr, hds]
  rw [hdata]
  refine ⟨hne, hdig, ?_⟩
  rw [hval 0]
  simp

end Alchemist

namespace Alchemist

/-- Splitting on `d` leaves a `d`-free list whole. -/
theorem splitOnD_no_d : ∀ {cs : List Char}, (∀ c ∈ cs, (c == 'd') = false) →
    splitOnD cs = [cs] := by
  intro cs
  induction cs with
  | nil => intro _; rfl
  | cons c rest ih =>
    intro h
    have hr := ih (fun x hx => h x (List.mem_cons_of_mem _ hx))
    rw [splitOnD.eq_def]
    simp [h c (by simp), hr]

/-- Splitting `xs ++ 'd' :: ys` cuts at the first `d` when `xs` is `d`-free. -/
theorem splitOnD_append : ∀ {xs : List Char} (ys : List Char),
    (∀ c ∈ xs, (c == 'd') = false) →
    splitOnD (xs ++ 'd' :: ys) = xs :: splitOnD ys := by
  intro xs
  induction xs with
  | nil =>
    intro ys _
    rw [List.nil_append, splitOnD.eq_def]
    simp
  | cons c rest ih =>
    intro ys h
    have hr := ih ys (fun x hx => h x (List.mem_cons_of_mem _ hx))
    rw [List.cons_append, splitOnD.eq_def]
    simp [h c (by simp), hr]

/-- A digit character is not `'d'`. -/
theorem digit_ne_d {c : Char} (h : c.isDigit = true) : (c == 'd') = false :=
  isDigit_ne_char h (by decide)

/-- On the exact dice shape `"NdM"`, `diceAvg` returns `N * M / 2`. -/
theorem diceAvg_pyRepr (c k : ℕ) :
    diceAvg (pyRepr c ++ "d" ++ pyRepr k) = some ((c : ℚ) * (k : ℚ) / 2) := by
  obtain ⟨hne1, hdig1, hval1⟩ := pyRepr_spec c
  obtain ⟨hne2, hdig2, hval2⟩ := pyRepr_spec k
  have hdata : (pyRepr c ++ "d" ++ pyRepr k).data
      = (pyRepr c).data ++ 'd' :: (pyRepr k).data := by
    simp [String.data_append]
  rw [diceAvg, hdata, splitOnD_append _ (fun x hx => digit_ne_d (hdig1 x hx)),
    splitOnD_no_d (fun x hx => digit_ne_d (hdig2 x hx))]
  simp only [pyInt_digits hne1 hdig1, pyInt_digits hne2 hdig2, hval1, hval2]
  push_cast
  ring_nf

end Alchemist

namespace Alchemist

/-- Evaluation of `avg_dmg`, both fields integers. -/
theorem avg_dmg_ii (L : String) (bo d s p : ℤ) :
    (Variant.mk L bo (.i d) s (.i p)).avg_dmg = some (((p : ℚ) + (s : ℚ)) * 3.24) := rfl

/-- Evaluation of `avg_dmg`, integer damage and dice-string persistent. -/
theorem avg_dmg_is (L : String) (bo d s : ℤ) (str : String) :
    (Variant.mk L bo (.i d) s (.s str)).avg_dmg
      = (diceAvg str).bind (fun p => some (p * 3.24)) := rfl

/-- Evaluation of `avg_dmg`, dice-string damage and integer persistent. -/
theorem avg_dmg_si (L : String) (bo s p : ℤ) (str : String) :
    (Variant.mk L bo (.s str) s (.i p)).avg_dmg
      = (diceAvg str).bind (fun _ => some (((p : ℚ) + (s : ℚ)) * 3.24)) := rfl

/-- Evaluation of `avg_dmg`, both fields dice strings. -/
theorem avg_dmg_ss (L : String) (bo s : ℤ) (str str2 : String) :
    (Variant.mk L bo (.s str) s (.s str2)).avg_dmg
      = (diceAvg str).bind (fun _ => (diceAvg str2).bind (fun p => some (p * 3.24))) := rfl

end Alchemist

namespace Alchemist

/-- Failure of `diceAvg` happens exactly when the string does not split into two
`int()`-acceptable pieces around `d`. -/
theorem diceAvg_eq_none_iff (s : String) : diceAvg s = none ↔
    ¬∃ a b : List Char, splitOnD s.data = [a, b] ∧ (pyInt a).isSome ∧ (pyInt b).isSome := by
  unfold diceAvg
  cases hsp : splitOnD s.data with
  | nil => simp
  | cons x xs =>
    cases xs with
    | nil => simp
    | cons y ys =>
      cases ys with
      | nil =>
        cases hx : pyInt x with
        | none => simp [hx]
        | some nx =>
          cases hy : pyInt y with
          | none => simp [hx, hy]
          | some ny => simp [hx, hy]
      | cons z zs => simp

/-- A string field satisfies the dice-parse obligation iff `diceAvg` succeeds. -/
theorem diceParses_iff (str : String) : diceParses (.s str) ↔ diceAvg str ≠ none := by
  rw [Ne, diceAvg_eq_none_iff, not_not]
  simp [diceParses]

/-- C1 (amended): when `persistent` is the integer `0` and the estimator does
not raise, the score is `splash * 3.24`; flat `damage` is never added, and the
score is `0` exactly when `splash` is `0`. -/
theorem C1_persistent_zero_amended (v : Variant) (h : v.persistent = .i 0)
    (h2 : v.avg_dmg.isSome = true) :
    v.avg_dmg = some ((v.splash : ℚ) * 3.24) := by
  obtain ⟨L, bo, dmg, s, per⟩ := v
  simp only [Variant.persistent] at h
  subst h
  cases dmg with
  | i d =>
    rw [avg_dmg_ii]
    norm_num
  | s str =>
    rw [avg_dmg_si] at h2 ⊢
    cases hda : diceAvg str with
    | none => rw [hda] at h2; simp at h2
    | some q =>
      simp only [Option.bind]
      norm_num

/-- C1 (counterexample): a Variant with integer `persistent = 0`, `splash = 1`
and flat `damage = 5` scores `3.24`, not `0`. -/
theorem C1_counterexample :
    (Variant.mk "x" 0 (.i 5) 1 (.i 0)).avg_dmg = some 3.24 ∧ (3.24 : ℚ) ≠ 0 := by
  refine ⟨?_, by norm_num⟩
  rw [avg_dmg_ii]
  norm_num

/-- C1 witness: the amended statement at the concrete Variant with
`persistent = .i 0`, `splash = 3`, `damage = .i 2`. -/
theorem C1_witness :
    (Variant.mk "x" 0 (.i 2) 3 (.i 0)).persistent = .i 0 ∧
    (Variant.mk "x" 0 (.i 2) 3 (.i 0)).avg_dmg.isSome = true ∧
    (Variant.mk "x" 0 (.i 2) 3 (.i 0)).avg_dmg
      = some (((Variant.mk "x" 0 (.i 2) 3 (.i 0)).splash : ℚ) * 3.24) :=
  ⟨rfl, by rw [avg_dmg_ii]; rfl,
    C1_persistent_zero_amended _ rfl (by rw [avg_dmg_ii]; rfl)⟩

/-- C2: the estimator matches the reference formulas: integer `persistent = p`
with `splash = s` scores `(p + s) * 3.24`, and dice persistent `"<c>d<k>"` with
`splash = 0` scores `c * k / 2 * 3.24` (any flat integer damage). -/
theorem C2_reference_formula :
    (∀ (L : String) (bo d : ℤ) (p s : ℕ),
        (Variant.mk L bo (.i d) (s : ℤ) (.i (p : ℤ))).avg_dmg
          = some (((p : ℚ) + (s : ℚ)) * 3.24)) ∧
    ∀ (L : String) (bo d : ℤ) (c k : ℕ),
        (Variant.mk L bo (.i d) 0 (.s (pyRepr c ++ "d" ++ pyRepr k))).avg_dmg
          = some ((c : ℚ) * (k : ℚ) / 2 * 3.24) := by
  constructor
  · intro L bo d p s
    rw [avg_dmg_ii]
    push_cast
    ring_nf
  · intro L bo d c k
    rw [avg_dmg_is, diceAvg_pyRepr]
    rfl

end Alchemist

namespace Alchemist

/-- Integer fields always satisfy the dice-parse obligation. -/
theorem diceParses_int (n : ℤ) : diceParses (.i n) := trivial

/-- C8: the estimator raises iff a string-valued `damage` or `persistent`
field fails to split into exactly two `int()`-parseable pieces around `d`
(integer fields never raise), and on well-formed fields (integers or exact
`"NdM"` dice strings) it never raises; being a pure function it is
deterministic. -/
theorem C8_parse_totality (v : Variant) :
    (v.avg_dmg = none ↔ ¬(diceParses v.damage ∧ diceParses v.persistent)) ∧
    (wellFormedField v.damage → wellFormedField v.persistent → v.avg_dmg ≠ none) := by
  obtain ⟨L, bo, dmg, s, per⟩ := v
  constructor
  · cases dmg with
    | i d =>
      cases per with
      | i p =>
        rw [avg_dmg_ii]
        simp [diceParses]
      | s str =>
        rw [avg_dmg_is]
        cases hda : diceAvg str with
        | none => simp [diceParses_int, diceParses_iff, hda]
        | some q => simp [diceParses_int, diceParses_iff, hda]
    | s str =>
      cases per with
      | i p =>
        rw [avg_dmg_si]
        cases hda : diceAvg str with
        | none => simp [diceParses_int, diceParses_iff, hda]
        | some q => simp [diceParses_int, diceParses_iff, hda]
      | s str2 =>
        rw [avg_dmg_ss]
        cases hda : diceAvg str with
        | none => simp [diceParses_int, diceParses_iff, hda]
        | some q =>
          cases hdb : diceAvg str2 with
          | none => simp [diceParses_int, diceParses_iff, hda, hdb]
          | some r => simp [diceParses_int, diceParses_iff, hda, hdb]
  · intro h1 h2
    cases dmg with
    | i d =>
      cases per with
      | i p => rw [avg_dmg_ii]; simp
      | s str =>
        obtain ⟨c, k, rfl⟩ := h2
        rw [avg_dmg_is, diceAvg_pyRepr]
        simp
    | s str =>
      obtain ⟨c, k, rfl⟩ := h1
      cases per with
      | i p =>
        rw [avg_dmg_si, diceAvg_pyRepr]
        simp
      | s str2 =>
        obtain ⟨c2, k2, rfl⟩ := h2
        rw [avg_dmg_ss, diceAvg_pyRepr, diceAvg_pyRepr]
        simp

/-- C8 witness: a Variant with dice fields `"1d6"` and `"2d4"` never raises. -/
theorem C8_witness : (Variant.mk "x" 0 (.s "1d6") 0 (.s "2d4")).avg_dmg ≠ none :=
  (C8_parse_totality _).2 ⟨1, 6, by decide⟩ ⟨2, 4, by decide⟩

end Alchemist

namespace Alchemist

/-- C7: with the single token `"-fire"`, the matcher rejects every bomb whose
`type` contains `"fire"`, and accepts every bomb none of whose matchable
fields mentions `"fire"`: the leading `-` is stripped and negates the
case-sensitive substring test. -/
theorem C7_negated_fire (b : Bomb) :
    (strIncl b.type "fire" = true → b.matchSearch ["-fire"] = some false) ∧
    (b.mentions "fire" = false → b.matchSearch ["-fire"] = some true) := by
  have hd : ("-fire" : String).data = '-' :: ['f', 'i', 'r', 'e'] := rfl
  have hmk : String.mk ['f', 'i', 'r', 'e'] = "fire" := rfl
  constructor
  · intro h
    have hm : b.mentions "fire" = true := by simp [Bomb.mentions, h]
    rw [Bomb.matchSearch.eq_def]
    simp [hd, hmk, hm]
  · intro h
    rw [Bomb.matchSearch.eq_def]
    simp [hd, hmk, h]
    rfl

/-- C7 witness: the two cases at concrete bombs (`type = "fire"` and a bomb
whose fields never mention `"fire"`). -/
theorem C7_witness :
    fireBomb.matchSearch ["-fire"] = some false ∧
    plainBomb.matchSearch ["-fire"] = some true :=
  ⟨(C7_negated_fire fireBomb).1 (by decide), (C7_negated_fire plainBomb).2 (by decide)⟩

/-- C10 (amended): the matcher never raises when every token is non-empty, and
an empty token raises exactly when the loop reaches it — in particular an
empty first token always raises (`IndexError` on `item[0]`). -/
theorem C10_empty_token_amended :
    (∀ (b : Bomb) (toks : List String), (∀ t ∈ toks, t ≠ "") →
        (b.matchSearch toks).isSome = true) ∧
    ∀ (b : Bomb) (rest : List String), b.matchSearch ("" :: rest) = none := by
  constructor
  · intro b toks
    induction toks with
    | nil => intro _; rfl
    | cons t ts ih =>
      intro h
      have ht : t.data ≠ [] := by
        intro he
        exact h t (by simp) (String.ext he)
      obtain ⟨c, cs, hdat⟩ := List.exists_cons_of_ne_nil ht
      rw [Bomb.matchSearch.eq_def]
      simp only [hdat]
      have hts : (b.matchSearch ts).isSome = true :=
        ih (fun x hx => h x (List.mem_cons_of_mem _ hx))
      split
      · split
        · exact hts
        · rfl
      · split
        · exact hts
        · rfl
  · intro b rest
    rw [Bomb.matchSearch.eq_def]

/-- C10 (counterexample): a token list containing the empty string does not
always raise — a failing earlier token short-circuits to `False` before the
empty token is reached. -/
theorem C10_counterexample :
    plainBomb.matchSearch ["q", ""] ≠ none ∧ "" ∈ ["q", ""] := by
  refine ⟨?_, by simp⟩
  decide

/-- C10 witness: the totality half at a concrete bomb and token list. -/
theorem C10_witness : (plainBomb.matchSearch ["a"]).isSome = true :=
  C10_empty_token_amended.1 plainBomb ["a"] (by decide)

end Alchemist

namespace Alchemist

/-- The selection loop computes the last key of the longest qualifying
prefix (default = the accumulator). -/
theorem selectGo_eq_takeWhile (L : ℤ) : ∀ (keys : List ℤ) (v : ℤ),
    selectGo L keys v = (keys.takeWhile (fun k => decide (k ≤ L))).getLastD v := by
  intro keys
  induction keys with
  | nil => intro v; rfl
  | cons k ks ih =>
    intro v
    rw [selectGo.eq_def, List.takeWhile_cons]
    by_cases hk : L < k
    · have hd : decide (k ≤ L) = false := by simp; omega
      simp [hk, hd]
    · have hd : decide (k ≤ L) = true := by simp; omega
      simp only [hk, if_false, hd, if_true, List.getLastD_cons]
      exact ih k

/-- In a strictly sorted list every qualifying key lies in the qualifying
prefix. -/
theorem mem_takeWhile_of_sorted (L : ℤ) : ∀ (l : List ℤ), l.Pairwise (· < ·) →
    ∀ k ∈ l, k ≤ L → k ∈ l.takeWhile (fun x => decide (x ≤ L)) := by
  intro l
  induction l with
  | nil => intro _ k hk; simp at hk
  | cons a as ih =>
    intro hp k hk hkL
    rw [List.takeWhile_cons]
    rcases List.mem_cons.mp hk with rfl | hk2
    · simp [hkL]
    · have haL : a ≤ L := le_of_lt (lt_of_lt_of_le (List.rel_of_pairwise_cons hp hk2) hkL)
      simp only [decide_eq_true_eq, haL, if_true]
      exact List.mem_cons_of_mem _ (ih (List.Pairwise.of_cons hp) k hk2 hkL)

/-- In a strictly sorted list every member is at most the last element. -/
theorem le_getLastD_sorted : ∀ (l : List ℤ), l.Pairwise (· < ·) →
    ∀ (d x : ℤ), x ∈ l → x ≤ l.getLastD d := by
  intro l
  induction l with
  | nil => intro _ d x hx; simp at hx
  | cons a as ih =>
    intro hp d x hx
    rw [List.getLastD_cons]
    rcases List.mem_cons.mp hx with rfl | hx2
    · rcases List.mem_cons.mp (List.getLastD_mem_cons as x) with he | hm
      · exact le_of_eq he.symm
      · exact le_of_lt (List.rel_of_pairwise_cons hp hm)
    · exact ih (List.Pairwise.of_cons hp) a x hx2

/-- C5: with unique positive keys iterated in ascending order, the selector
returns the greatest key `≤ L` when one exists, and `0` (treated as "no tier",
excluding the item) when no key qualifies. -/
theorem C5_level_selector (keys : List ℤ) (L : ℤ) (hsort : keys.Pairwise (· < ·))
    (hpos : ∀ k ∈ keys, 0 < k) :
    ((∃ k ∈ keys, k ≤ L) →
      selectVersion keys L ∈ keys ∧ selectVersion keys L ≤ L ∧
        ∀ k ∈ keys, k ≤ L → k ≤ selectVersion keys L) ∧
    ((∀ k ∈ keys, L < k) → selectVersion keys L = 0) := by
  have heq : selectVersion keys L = (keys.takeWhile (fun x => decide (x ≤ L))).getLastD 0 :=
    selectGo_eq_takeWhile L keys 0
  constructor
  · rintro ⟨k, hk, hkL⟩
    have hktw : k ∈ keys.takeWhile (fun x => decide (x ≤ L)) :=
      mem_takeWhile_of_sorted L keys hsort k hk hkL
    obtain ⟨x, xs, hx⟩ := List.exists_cons_of_ne_nil (List.ne_nil_of_mem hktw)
    have hmem : (keys.takeWhile (fun x => decide (x ≤ L))).getLastD 0
        ∈ keys.takeWhile (fun x => decide (x ≤ L)) := by
      rw [hx, List.getLastD_cons]
      exact List.getLastD_mem_cons xs x
    refine ⟨?_, ?_, ?_⟩
    · rw [heq]
      exact (List.takeWhile_sublist _).subset hmem
    · rw [heq]
      have := List.mem_takeWhile_imp hmem
      simpa using this
    · intro k2 hk2 hk2L
      rw [heq]
      exact le_getLastD_sorted _ (hsort.sublist (List.takeWhile_sublist _)) 0 k2
        (mem_takeWhile_of_sorted L keys hsort k2 hk2 hk2L)
  · intro hall
    cases keys with
    | nil => rfl
    | cons a as =>
      have hd : decide (a ≤ L) = false := by
        simp only [decide_eq_false_iff_not]
        exact not_le.mpr (hall a (by simp))
      rw [heq, List.takeWhile_cons, hd]
      simp

end Alchemist

namespace Alchemist

/-- C5 witness: tiers at levels 1, 3, 6 — ceiling 4 selects 3 (derived from
the characterization), ceiling 0 selects no tier. -/
theorem C5_witness : selectVersion [1, 3, 6] 4 = 3 ∧ selectVersion [1, 3, 6] 0 = 0 := by
  have hs : ([1, 3, 6] : List ℤ).Pairwise (· < ·) := by decide
  have hp : ∀ k ∈ ([1, 3, 6] : List ℤ), 0 < k := by decide
  have h4 := (C5_level_selector [1, 3, 6] 4 hs hp).1 ⟨3, by simp, by norm_num⟩
  have h0 := (C5_level_selector [1, 3, 6] 0 hs hp).2 (by decide)
  obtain ⟨hmem, hle, hmax⟩ := h4
  have h3 := hmax 3 (by simp) (by norm_num)
  refine ⟨?_, h0⟩
  have hc : selectVersion [1, 3, 6] 4 = 1 ∨ selectVersion [1, 3, 6] 4 = 3 ∨
      selectVersion [1, 3, 6] 4 = 6 := by simpa using hmem
  omega

end Alchemist

namespace Alchemist

/-- Inserting an element into a descending-ordered list commutes with
filtering by an exact score: equal scores are passed only by strictly
greater ones, so a new element lands in front of its score class. -/
theorem filter_orderedInsert {α : Type} (key : α → ℚ) (q : ℚ) (x : α) :
    ∀ l : List α,
      (List.orderedInsert (fun a b => key b ≤ key a) x l).filter (fun a => key a == q)
        = if key x == q then x :: l.filter (fun a => key a == q)
          else l.filter (fun a => key a == q) := by
  intro l
  induction l with
  | nil =>
    cases hx : key x == q with
    | true => simp [List.orderedInsert, List.filter, hx]
    | false => simp [List.orderedInsert, List.filter, hx]
  | cons y ys ih =>
    rw [List.orderedInsert]
    by_cases hr : key y ≤ key x
    · rw [if_pos hr, List.filter_cons, List.filter_cons]
    · rw [if_neg hr, List.filter_cons, List.filter_cons, ih]
      by_cases hx : (key x == q) = true
      · have hxq : key x = q := beq_iff_eq.mp hx
        have hlt : key x < key y := not_le.mp hr
        have hy : (key y == q) = false := beq_eq_false_iff_ne.mpr (ne_of_gt (hxq ▸ hlt))
        simp [hx, hy]
      · have hx' : (key x == q) = false := by
          cases hbx : key x == q with
          | false => rfl
          | true => exact absurd hbx hx
        simp [hx']

/-- Filtering by an exact score commutes with the whole descending sort:
the sort is stable. -/
theorem filter_sortDesc {α : Type} (key : α → ℚ) (q : ℚ) :
    ∀ l : List α, (sortDesc key l).filter (fun a => key a == q)
      = l.filter (fun a => key a == q) := by
  intro l
  induction l with
  | nil => rfl
  | cons a l ih =>
    show (List.orderedInsert _ a (sortDesc key l)).filter _ = _
    rw [filter_orderedInsert, ih, List.filter_cons]

/-- C6: the ranking step sorts by score in descending order; it permutes its
input, equal-score elements keep their original relative order (filtering by
any exact score is unchanged), and three items scored 10, 30, 20 come out in
the order 30, 20, 10. -/
theorem C6_ranking :
    (∀ (α : Type) (key : α → ℚ) (l : List α),
        (sortDesc key l).Perm l ∧
        (sortDesc key l).Pairwise (fun x y => key y ≤ key x) ∧
        ∀ q : ℚ, (sortDesc key l).filter (fun a => key a == q)
          = l.filter (fun a => key a == q)) ∧
    sortDesc Prod.snd [(("a" : String), (10 : ℚ)), ("b", 30), ("c", 20)]
      = [("b", 30), ("c", 20), ("a", 10)] := by
  constructor
  · intro α key l
    refine ⟨List.perm_insertionSort _ l, ?_, fun q => filter_sortDesc key q l⟩
    letI : IsTotal α (fun x y => key y ≤ key x) := ⟨fun a b => le_total (key b) (key a)⟩
    letI : IsTrans α (fun x y => key y ≤ key x) :=
      ⟨fun a b c hab hbc => le_trans hbc hab⟩
    exact List.sorted_insertionSort _ l
  · with_unfolding_all decide

end Alchemist

namespace Alchemist

/-- Unfolding of the catalog scan at a cons cell, given the evaluated
skip test. -/
theorem mainScan_cons (f : List String) (L : ℤ) (s : List String) (name : String) (b : Bomb)
    (rest : List (String × Bomb)) (skip : Bool)
    (hskip : (if s.isEmpty then some false else (b.matchSearch s).map (fun m => !m))
      = some skip) :
    mainScan f L s ((name, b) :: rest)
      = if skip then mainScan f L s rest
        else if !(f.contains name) then
          (mainScan f L s rest).map (fun r => (name :: r.1, r.2))
        else if selectVersion (b.levels.map Prod.fst) L != 0 then
          (mainScan f L s rest).map
            (fun r => (r.1, (name, b, selectVersion (b.levels.map Prod.fst) L) :: r.2))
        else mainScan f L s rest := by
  simp only [mainScan]
  rw [show (if s.isEmpty then (some false : Option Bool)
      else (b.matchSearch s).map (fun m => !m)) = some skip from hskip]

end Alchemist

namespace Alchemist

/-- A failing match aborts the scan at a cons cell. -/
theorem mainScan_cons_none (f : List String) (L : ℤ) (s : List String) (name : String)
    (b : Bomb) (rest : List (String × Bomb))
    (hse : s.isEmpty = false) (hm : b.matchSearch s = none) :
    mainScan f L s ((name, b) :: rest) = none := by
  simp only [mainScan]
  rw [if_neg (by simp [hse]), hm]
  rfl

/-- The bare names printed by the scan are exactly the catalog items that pass
the search filter and are not known formulae, in catalog order. -/
theorem mainScan_names (f : List String) (L : ℤ) (s : List String) :
    ∀ (catalog : List (String × Bomb)) (names : List String)
      (vars : List (String × Bomb × ℤ)),
      mainScan f L s catalog = some (names, vars) →
      names = (catalog.filter (fun p =>
        (s.isEmpty || (p.2.matchSearch s == some true)) && !(f.contains p.1))).map
          Prod.fst := by
  intro catalog
  induction catalog with
  | nil =>
    intro names vars h
    simp only [mainScan, Option.some.injEq, Prod.mk.injEq] at h
    rw [← h.1]
    rfl
  | cons p rest ih =>
    obtain ⟨name, b⟩ := p
    intro names vars h
    have hmain : ∀ hc : (s.isEmpty || (b.matchSearch s == some true)) = true,
        (if (!f.contains name) = true then
            Option.map (fun r => (name :: r.1, r.2)) (mainScan f L s rest)
          else if (selectVersion (b.levels.map Prod.fst) L != 0) = true then
            Option.map (fun r =>
              (r.1, (name, b, selectVersion (b.levels.map Prod.fst) L) :: r.2))
              (mainScan f L s rest)
          else mainScan f L s rest) = some (names, vars) →
        names = (((name, b) :: rest).filter (fun p =>
          (s.isEmpty || (p.2.matchSearch s == some true)) && !(f.contains p.1))).map
            Prod.fst := by
      intro hc h2
      rw [List.filter_cons]
      cases hf : f.contains name with
      | true =>
        rw [if_neg (by rw [hf]; simp)] at h2
        rw [if_neg (by simp)]
        cases hv : selectVersion (b.levels.map Prod.fst) L != 0 with
        | true =>
          rw [hv, if_pos rfl] at h2
          cases hrec : mainScan f L s rest with
          | none => rw [hrec] at h2; exact absurd h2 (by simp)
          | some r =>
            rw [hrec] at h2
            simp only [Option.map, Option.some.injEq, Prod.mk.injEq] at h2
            rw [← h2.1]
            exact ih r.1 r.2 (by rw [hrec])
        | false =>
          rw [hv] at h2
          simp only [Bool.false_eq_true, if_false] at h2
          exact ih names vars h2
      | false =>
        rw [if_pos (by rw [hf]; rfl)] at h2
        rw [if_pos (by simp [hc]), List.map_cons]
        cases hrec : mainScan f L s rest with
        | none => rw [hrec] at h2; exact absurd h2 (by simp)
        | some r =>
          rw [hrec] at h2
          simp only [Option.map, Option.some.injEq, Prod.mk.injEq] at h2
          rw [← h2.1]
          rw [ih r.1 r.2 (by rw [hrec])]
    rcases Bool.eq_false_or_eq_true s.isEmpty with hse | hse
    · rw [mainScan_cons f L s name b rest false (by rw [if_pos hse])] at h
      simp only [Bool.false_eq_true, if_false] at h
      exact hmain (by simp [hse]) h
    · cases hm : b.matchSearch s with
      | none =>
        rw [mainScan_cons_none f L s name b rest hse hm] at h
        exact absurd h (by simp)
      | some m =>
        rw [mainScan_cons f L s name b rest (!m)
          (by rw [if_neg (by simp [hse]), hm]; rfl)] at h
        cases m with
        | false =>
          simp only [Bool.not_false, if_pos rfl] at h
          rw [List.filter_cons, if_neg (by simp [hse, hm])]
          exact ih names vars h
        | true =>
          simp only [Bool.not_true, Bool.false_eq_true, if_false] at h
          exact hmain (by simp [hse, hm]) h

end Alchemist

namespace Alchemist

/-- Every output of a successful `mapMO` run comes from some input element. -/
theorem mapMO_mem {α β : Type} (g : α → Option β) :
    ∀ (l : List α) (l2 : List β), mapMO g l = some l2 →
      ∀ y ∈ l2, ∃ x ∈ l, g x = some y := by
  intro l
  induction l with
  | nil =>
    intro l2 h y hy
    simp only [mapMO, Option.some.injEq] at h
    rw [← h] at hy
    simp at hy
  | cons a as ih =>
    intro l2 h y hy
    simp only [mapMO] at h
    cases hfa : g a with
    | none => rw [hfa] at h; exact absurd h (by simp)
    | some b =>
      rw [hfa] at h
      cases hrest : mapMO g as with
      | none => rw [hrest] at h; exact absurd h (by simp)
      | some bs =>
        rw [hrest] at h
        simp only [Option.some.injEq] at h
        rw [← h] at hy
        rcases List.mem_cons.mp hy with rfl | hy2
        · exact ⟨a, by simp, hfa⟩
        · obtain ⟨x, hx, hgx⟩ := ih bs hrest y hy2
          exact ⟨x, List.mem_cons_of_mem _ hx, hgx⟩

/-- C4 (amended): an unknown item's bare name is printed iff the item also
passes the search filter (no tokens, or all tokens match); unknown items that
fail the search are skipped silently. -/
theorem C4_unknown_names_amended (catalog : List (String × Bomb))
    (formulae : List String) (ceiling : ℤ) (search : List String)
    (names : List String) (vars : List (String × Bomb × ℤ))
    (h : mainScan formulae ceiling search catalog = some (names, vars)) :
    names = (catalog.filter (fun p =>
      (search.isEmpty || (p.2.matchSearch search == some true)) &&
        !(formulae.contains p.1))).map Prod.fst :=
  mainScan_names formulae ceiling search catalog names vars h

/-- C4 (counterexample): the item `"x"` is absent from the known-items list,
yet with search token `"zzz"` (which it does not match) the program prints
nothing at all — the bare name is not printed for every choice of tokens. -/
theorem C4_counterexample : main [("x", plainBomb)] [] 1 ["zzz"] = some [] := by
  decide

/-- C4 witness: the amended characterization at a concrete one-item catalog
with no search tokens. -/
theorem C4_witness :
    (["x"] : List String) = (([("x", plainBomb)].filter (fun p =>
      (([] : List String).isEmpty || (p.2.matchSearch [] == some true)) &&
        !(([] : List String).contains p.1))).map Prod.fst) :=
  C4_unknown_names_amended [("x", plainBomb)] [] 1 [] ["x"] [] (by decide)

/-- C9: in every successful run the printed output is the bare names of the
not-known (but search-passing) items, in catalog order, followed by all the
rendered ranked blocks — the two are never interleaved. -/
theorem C9_names_before_blocks (catalog : List (String × Bomb))
    (formulae : List String) (ceiling : ℤ) (search : List String)
    (out : List String)
    (h : main catalog formulae ceiling search = some out) :
    ∃ names blocks, out = names ++ blocks ∧
      names = (catalog.filter (fun p =>
        (search.isEmpty || (p.2.matchSearch search == some true)) &&
          !(formulae.contains p.1))).map Prod.fst ∧
      ∀ t ∈ blocks, ∃ (name : String) (b : Bomb) (lvl : ℤ),
        parse_bomb name b lvl = some t := by
  unfold main at h
  cases hscan : mainScan formulae ceiling search catalog with
  | none => rw [hscan] at h; exact absurd h (by simp)
  | some r =>
    obtain ⟨names, variants⟩ := r
    rw [hscan] at h
    dsimp only at h
    cases hkey : mapMO (fun v => (variantScore v).map (fun q => (v, q))) variants with
    | none => rw [hkey] at h; exact absurd h (by simp)
    | some keyed =>
      rw [hkey] at h
      dsimp only at h
      cases hblk : mapMO (fun v => parse_bomb v.1.1 v.1.2.1 v.1.2.2)
          (sortDesc Prod.snd keyed) with
      | none => rw [hblk] at h; exact absurd h (by simp)
      | some blocks =>
        rw [hblk] at h
        simp only [Option.some.injEq] at h
        refine ⟨names, blocks, h.symm,
          mainScan_names formulae ceiling search catalog names variants hscan, ?_⟩
        intro t ht
        obtain ⟨v, _, hv⟩ := mapMO_mem _ _ blocks hblk t ht
        exact ⟨v.1.1, v.1.2.1, v.1.2.2, hv⟩

/-- C9 witness: the decomposition at a concrete run (one unknown item, no
search tokens: the output is exactly its bare name and no blocks). -/
theorem C9_witness :
    ∃ names blocks, (["x"] : List String) = names ++ blocks ∧
      names = ([("x", plainBomb)].filter (fun p =>
        (([] : List String).isEmpty || (p.2.matchSearch [] == some true)) &&
          !(([] : List String).contains p.1))).map Prod.fst ∧
      ∀ t ∈ blocks, ∃ (name : String) (b : Bomb) (lvl : ℤ),
        parse_bomb name b lvl = some t :=
  C9_names_before_blocks [("x", plainBomb)] [] 1 [] ["x"] (by decide)

end Alchemist

namespace Alchemist

/-- C3 (counterexample): the spec's end-to-end example header claims a score
of `10.8`, but the program prints `9.72` (`1*6/2 * 3.24`), so the claimed
block is not the output. -/
theorem C3_counterexample : main [("acid flask", acidFlask)] ["acid flask"] 1 []
    ≠ some [("Acid Flask (Lesser) [1] (10.8 dmg)\n" ++
      "The bomb deals 1d6 acid damage, 1d6 persistent acid damage.\n")] := by
  with_unfolding_all decide

/-- C3 (amended): the end-to-end example prints exactly one block, with header
line showing score `9.72` and the claimed body line. -/
theorem C3_end_to_end_amended : main [("acid flask", acidFlask)] ["acid flask"] 1 []
    = some [("Acid Flask (Lesser) [1] (9.72 dmg)\n" ++
      "The bomb deals 1d6 acid damage, 1d6 persistent acid damage.\n")] := by
  with_unfolding_all decide

end Alchemist
